import Mathlib

/-!
Verification of the agent-rate-limiter repository against its specification.

The Python sources are shallowly embedded: wall-clock time is a rational
parameter, Python floats are modelled as rationals, mutation is explicit
state passing, callbacks are event logs, and a raised exception is an
explicit error value carried next to the post-state (so that state mutated
before the raise is still visible, as it is in Python).
-/

/- ### Cost tracking (src/agent_rate_limiter/core/cost_tracker.py) -/

/-- One cost entry (class CostEntry). -/
structure CostEntry where
  provider : String
  model : String
  input_tokens : ℕ
  output_tokens : ℕ
  cost : ℚ
  timestamp : ℚ
  deriving Repr, DecidableEq

/-- State of a CostTracker: budget configuration, the append-only entry
list, and the per-window alert flags (dict `_alerted`).  `has_on_alert`
records whether an `on_alert` callback was supplied. -/
structure CostTracker where
  daily_budget : Option ℚ
  weekly_budget : Option ℚ
  monthly_budget : Option ℚ
  alert_threshold : ℚ
  has_on_alert : Bool
  entries : List CostEntry
  alerted_daily : Bool
  alerted_weekly : Bool
  alerted_monthly : Bool
  deriving Repr, DecidableEq

/-- An `on_alert(window, current, cap)` invocation. -/
abbrev AlertEvent := String × ℚ × ℚ

/-- `CostTracker._get_cost_since`: sum of costs of entries with
`timestamp >= since`. -/
def getCostSince (entries : List CostEntry) (since : ℚ) : ℚ :=
  ((entries.filter (fun e => since ≤ e.timestamp)).map (fun e => e.cost)).sum

/-- Python truthiness of an optional float budget: `if self.daily_budget:`
is taken when the budget is present and nonzero. -/
def budgetEnabled : Option ℚ → Bool
  | none => false
  | some b => b ≠ 0

/-- One window of `CostTracker._check_budgets`: given the cap, threshold,
callback presence, current alert flag and the window cost, return
(raised, alerts emitted, new alert flag).  Mirrors the
`if cost >= cap: raise / elif cost >= cap*threshold and not alerted` chain. -/
def checkWindow (name : String) (cap : Option ℚ) (threshold : ℚ)
    (hasCb : Bool) (flag : Bool) (c : ℚ) : Bool × List AlertEvent × Bool :=
  match cap with
  | none => (false, [], flag)
  | some b =>
    if b = 0 then (false, [], flag)
    else if b ≤ c then (true, [], flag)
    else if b * threshold ≤ c ∧ flag = false then
      (false, if hasCb then [(name, c, b)] else [], true)
    else (false, [], flag)

/-- `CostTracker._check_budgets`: evaluates daily, weekly, monthly in that
order; the first window whose sum meets its cap raises (returned as
`some windowName`), stopping the remaining checks; alert flag updates made
before the raise persist. -/
def checkBudgets (t : CostTracker) (now : ℚ) :
    CostTracker × List AlertEvent × Option String :=
  let dc := getCostSince t.entries (now - 86400)
  let wc := getCostSince t.entries (now - 604800)
  let mc := getCostSince t.entries (now - 2592000)
  let d := checkWindow "daily" t.daily_budget t.alert_threshold
    t.has_on_alert t.alerted_daily dc
  if d.1 then (t, [], some "daily")
  else
    let t1 := { t with alerted_daily := d.2.2 }
    let w := checkWindow "weekly" t1.weekly_budget t1.alert_threshold
      t1.has_on_alert t1.alerted_weekly wc
    if w.1 then (t1, d.2.1, some "weekly")
    else
      let t2 := { t1 with alerted_weekly := w.2.2 }
      let m := checkWindow "monthly" t2.monthly_budget t2.alert_threshold
        t2.has_on_alert t2.alerted_monthly mc
      if m.1 then (t2, d.2.1 ++ w.2.1, some "monthly")
      else ({ t2 with alerted_monthly := m.2.2 }, d.2.1 ++ w.2.1 ++ m.2.1, none)

/-- Result of `CostTracker.record`: the post-state (the new entry is in
`tracker.entries` even when the call raised), the alert callbacks invoked,
the computed cost, and the raised `BudgetExceededError` window if any. -/
structure RecordResult where
  tracker : CostTracker
  alerts : List AlertEvent
  cost : ℚ
  error : Option String
  deriving Repr, DecidableEq

/-- `CostTracker.record`: compute the cost, append the entry, then run
`_check_budgets`.  The two `time.time()` reads (entry timestamp and the
window anchor) are modelled as the single instant `now`. -/
def record (t : CostTracker) (now : ℚ) (provider model : String)
    (input_tokens output_tokens : ℕ) (costPer1kInput costPer1kOutput : ℚ) :
    RecordResult :=
  let cost := ((input_tokens : ℚ) / 1000) * costPer1kInput +
    ((output_tokens : ℚ) / 1000) * costPer1kOutput
  let entry : CostEntry :=
    { provider := provider, model := model, input_tokens := input_tokens,
      output_tokens := output_tokens, cost := cost, timestamp := now }
  let t' := { t with entries := t.entries ++ [entry] }
  let r := checkBudgets t' now
  { tracker := r.1, alerts := r.2.1, cost := cost, error := r.2.2 }

/-- A window cap triggers a `BudgetExceededError`: the budget is set,
nonzero (Python truthiness), and the window cost meets or exceeds it. -/
def windowBreached (cap : Option ℚ) (c : ℚ) : Prop :=
  ∃ b, cap = some b ∧ b ≠ 0 ∧ b ≤ c

lemma checkWindow_raises_iff (name : String) (cap : Option ℚ) (θ : ℚ)
    (cb flag : Bool) (c : ℚ) :
    (checkWindow name cap θ cb flag c).1 = true ↔ windowBreached cap c := by
  cases cap with
  | none => simp [checkWindow, windowBreached]
  | some b =>
    by_cases hb : b = 0
    · simp [checkWindow, windowBreached, hb]
    · by_cases hc : b ≤ c
      · simp [checkWindow, windowBreached, hb, hc]
      · by_cases ha : b * θ ≤ c ∧ flag = false
        · simp [checkWindow, windowBreached, hb, hc, ha]
        · simp [checkWindow, windowBreached, hb, hc, ha]

lemma checkWindow_entries_free (name : String) (cap : Option ℚ) (θ : ℚ)
    (cb flag : Bool) (c : ℚ) :
    (checkWindow name cap θ cb flag c).1 = false →
      (checkWindow name cap θ cb flag c) =
        (false, (checkWindow name cap θ cb flag c).2.1,
          (checkWindow name cap θ cb flag c).2.2) := by
  intro h
  exact Prod.ext h rfl

lemma checkBudgets_entries (t : CostTracker) (now : ℚ) :
    (checkBudgets t now).1.entries = t.entries := by
  simp only [checkBudgets]
  split
  · rfl
  · split
    · rfl
    · split <;> rfl

lemma checkBudgets_error_iff (t : CostTracker) (now : ℚ) :
    (checkBudgets t now).2.2.isSome = true ↔
      windowBreached t.daily_budget (getCostSince t.entries (now - 86400)) ∨
      windowBreached t.weekly_budget (getCostSince t.entries (now - 604800)) ∨
      windowBreached t.monthly_budget (getCostSince t.entries (now - 2592000)) := by
  simp only [checkBudgets]
  rw [← checkWindow_raises_iff "daily" t.daily_budget t.alert_threshold
      t.has_on_alert t.alerted_daily _,
    ← checkWindow_raises_iff "weekly" t.weekly_budget t.alert_threshold
      t.has_on_alert t.alerted_weekly _,
    ← checkWindow_raises_iff "monthly" t.monthly_budget t.alert_threshold
      t.has_on_alert t.alerted_monthly _]
  split
  · simp_all
  · split
    · simp_all
    · split <;> simp_all

/-- C1.  `CostTracker.record(provider, model, input_tokens, output_tokens,
inRate, outRate)` computes cost `(input/1000)·inRate + (output/1000)·outRate`,
appends an entry with that cost to the log, and raises `BudgetExceededError`
iff some enabled budget window (daily 86400 s, weekly 604800 s, monthly
2592000 s) has a rolling-window cost sum that meets or exceeds its cap;
the offending entry is retained in the log even when the call raises. -/
theorem record_cost_retention_and_budget_breach (t : CostTracker) (now : ℚ)
    (provider model : String) (inTok outTok : ℕ) (inRate outRate : ℚ) :
    (record t now provider model inTok outTok inRate outRate).cost =
      ((inTok : ℚ) / 1000) * inRate + ((outTok : ℚ) / 1000) * outRate ∧
    (record t now provider model inTok outTok inRate outRate).tracker.entries =
      t.entries ++ [{ provider := provider, model := model,
                      input_tokens := inTok, output_tokens := outTok,
                      cost := ((inTok : ℚ) / 1000) * inRate +
                        ((outTok : ℚ) / 1000) * outRate,
                      timestamp := now }] ∧
    ((record t now provider model inTok outTok inRate outRate).error.isSome = true ↔
      windowBreached t.daily_budget
        (getCostSince
          ((record t now provider model inTok outTok inRate outRate).tracker.entries)
          (now - 86400)) ∨
      windowBreached t.weekly_budget
        (getCostSince
          ((record t now provider model inTok outTok inRate outRate).tracker.entries)
          (now - 604800)) ∨
      windowBreached t.monthly_budget
        (getCostSince
          ((record t now provider model inTok outTok inRate outRate).tracker.entries)
          (now - 2592000))) := by
  refine ⟨rfl, ?_, ?_⟩
  · simp only [record]
    rw [checkBudgets_entries]
  · simp only [record]
    rw [checkBudgets_entries]
    exact checkBudgets_error_iff _ now

/-- C2.  The repository's own test (`test_budget_alert`) and the spec expect
`record("openai","gpt-4",27000,13000,0.03,0.06)` with dailyBudget 1.00 and
threshold 0.8 to invoke `onAlert("daily", 1.59, 1.00)` once; the code
instead raises `BudgetExceededError` on that very call (the alert branch is
an `elif` behind the raise) and invokes no alert callback at all. -/
theorem record_alert_example_raises_without_alert :
    (record
      { daily_budget := some 1, weekly_budget := none, monthly_budget := none,
        alert_threshold := 4/5, has_on_alert := true, entries := [],
        alerted_daily := false, alerted_weekly := false,
        alerted_monthly := false }
      0 "openai" "gpt-4" 27000 13000 (3/100) (6/100)).cost = 159/100 ∧
    (record
      { daily_budget := some 1, weekly_budget := none, monthly_budget := none,
        alert_threshold := 4/5, has_on_alert := true, entries := [],
        alerted_daily := false, alerted_weekly := false,
        alerted_monthly := false }
      0 "openai" "gpt-4" 27000 13000 (3/100) (6/100)).error = some "daily" ∧
    (record
      { daily_budget := some 1, weekly_budget := none, monthly_budget := none,
        alert_threshold := 4/5, has_on_alert := true, entries := [],
        alerted_daily := false, alerted_weekly := false,
        alerted_monthly := false }
      0 "openai" "gpt-4" 27000 13000 (3/100) (6/100)).alerts = [] := by
  refine ⟨by norm_num [record], ?_, ?_⟩ <;>
    norm_num [record, checkBudgets, checkWindow, getCostSince]

lemma checkWindow_disabled (name : String) (cap : Option ℚ) (θ : ℚ)
    (cb flag : Bool) (c : ℚ) (h : cap = none ∨ cap = some 0) :
    checkWindow name cap θ cb flag c = (false, [], flag) := by
  rcases h with h | h <;> simp [h, checkWindow]

lemma checkWindow_alert_enabled (name : String) (cap : Option ℚ) (θ : ℚ)
    (cb flag : Bool) (c : ℚ) :
    ∀ a ∈ (checkWindow name cap θ cb flag c).2.1,
      a.1 = name ∧ ∃ b, cap = some b ∧ b ≠ 0 := by
  intro a ha
  cases cap with
  | none => simp [checkWindow] at ha
  | some b =>
    by_cases h0 : b = 0
    · simp [checkWindow, h0] at ha
    · by_cases hc : b ≤ c
      · simp [checkWindow, h0, hc] at ha
      · by_cases halert : b * θ ≤ c ∧ flag = false
        · by_cases hcb : cb
          · simp [checkWindow, h0, hc, halert, hcb] at ha
            exact ⟨by rw [ha], b, rfl, h0⟩
          · simp [checkWindow, h0, hc, halert, hcb] at ha
        · simp [checkWindow, h0, hc, halert] at ha

lemma checkWindow_raise_enabled (name : String) (cap : Option ℚ) (θ : ℚ)
    (cb flag : Bool) (c : ℚ) (h : (checkWindow name cap θ cb flag c).1 = true) :
    ∃ b, cap = some b ∧ b ≠ 0 := by
  obtain ⟨b, hb, hne, -⟩ := (checkWindow_raises_iff name cap θ cb flag c).mp h
  exact ⟨b, hb, hne⟩

lemma checkBudgets_error_enabled (t : CostTracker) (now : ℚ) (name : String)
    (h : (checkBudgets t now).2.2 = some name) :
    (name = "daily" ∧ ∃ b, t.daily_budget = some b ∧ b ≠ 0) ∨
    (name = "weekly" ∧ ∃ b, t.weekly_budget = some b ∧ b ≠ 0) ∨
    (name = "monthly" ∧ ∃ b, t.monthly_budget = some b ∧ b ≠ 0) := by
  simp only [checkBudgets] at h
  split at h
  · refine Or.inl ⟨by simpa using h.symm, ?_⟩
    exact checkWindow_raise_enabled _ _ _ _ _ _ (by assumption)
  · split at h
    · refine Or.inr (Or.inl ⟨by simpa using h.symm, ?_⟩)
      exact checkWindow_raise_enabled _ _ _ _ _ _ (by assumption)
    · split at h
      · refine Or.inr (Or.inr ⟨by simpa using h.symm, ?_⟩)
        exact checkWindow_raise_enabled _ _ _ _ _ _ (by assumption)
      · simp at h

lemma checkBudgets_alert_enabled (t : CostTracker) (now : ℚ) :
    ∀ a ∈ (checkBudgets t now).2.1,
      (a.1 = "daily" ∧ ∃ b, t.daily_budget = some b ∧ b ≠ 0) ∨
      (a.1 = "weekly" ∧ ∃ b, t.weekly_budget = some b ∧ b ≠ 0) ∨
      (a.1 = "monthly" ∧ ∃ b, t.monthly_budget = some b ∧ b ≠ 0) := by
  intro a ha
  simp only [checkBudgets] at ha
  split at ha
  · simp at ha
  · split at ha
    · exact Or.inl (checkWindow_alert_enabled _ _ _ _ _ _ a ha)
    · split at ha
      · simp only [List.mem_append] at ha
        rcases ha with ha | ha
        · exact Or.inl (checkWindow_alert_enabled _ _ _ _ _ _ a ha)
        · exact Or.inr (Or.inl (checkWindow_alert_enabled _ _ _ _ _ _ a ha))
      · simp only [List.mem_append] at ha
        rcases ha with (ha | ha) | ha
        · exact Or.inl (checkWindow_alert_enabled _ _ _ _ _ _ a ha)
        · exact Or.inr (Or.inl (checkWindow_alert_enabled _ _ _ _ _ _ a ha))
        · exact Or.inr (Or.inr (checkWindow_alert_enabled _ _ _ _ _ _ a ha))

/-- C10.  A budget cap left as `None` or set to `0.0` disables enforcement
for that window: `record` neither raises `BudgetExceededError` for that
window nor emits an `onAlert` event for it, whatever cost is recorded. -/
theorem zero_or_none_budget_disables_window (t : CostTracker) (now : ℚ)
    (provider model : String) (inTok outTok : ℕ) (inRate outRate : ℚ) :
    ((t.daily_budget = none ∨ t.daily_budget = some 0) →
      (record t now provider model inTok outTok inRate outRate).error ≠
        some "daily" ∧
      ∀ a ∈ (record t now provider model inTok outTok inRate outRate).alerts,
        a.1 ≠ "daily") ∧
    ((t.weekly_budget = none ∨ t.weekly_budget = some 0) →
      (record t now provider model inTok outTok inRate outRate).error ≠
        some "weekly" ∧
      ∀ a ∈ (record t now provider model inTok outTok inRate outRate).alerts,
        a.1 ≠ "weekly") ∧
    ((t.monthly_budget = none ∨ t.monthly_budget = some 0) →
      (record t now provider model inTok outTok inRate outRate).error ≠
        some "monthly" ∧
      ∀ a ∈ (record t now provider model inTok outTok inRate outRate).alerts,
        a.1 ≠ "monthly") := by
  have hdis : ∀ (cap : Option ℚ), (cap = none ∨ cap = some 0) →
      ¬ ∃ b, cap = some b ∧ b ≠ 0 := by
    rintro cap (h | h) ⟨b, hb, hne⟩ <;> rw [h] at hb <;> simp_all
  refine ⟨fun h => ⟨fun heq => ?_, fun a ha haname => ?_⟩,
    fun h => ⟨fun heq => ?_, fun a ha haname => ?_⟩,
    fun h => ⟨fun heq => ?_, fun a ha haname => ?_⟩⟩
  · rcases checkBudgets_error_enabled _ now _ heq with ⟨-, hb⟩ | ⟨hn, -⟩ | ⟨hn, -⟩
    · exact hdis _ h hb
    · exact absurd hn (by decide)
    · exact absurd hn (by decide)
  · rcases checkBudgets_alert_enabled _ now a ha with ⟨hn, hb⟩ | ⟨hn, -⟩ | ⟨hn, -⟩
    · exact hdis _ h hb
    · rw [haname] at hn; exact absurd hn (by decide)
    · rw [haname] at hn; exact absurd hn (by decide)
  · rcases checkBudgets_error_enabled _ now _ heq with ⟨hn, -⟩ | ⟨-, hb⟩ | ⟨hn, -⟩
    · exact absurd hn (by decide)
    · exact hdis _ h hb
    · exact absurd hn (by decide)
  · rcases checkBudgets_alert_enabled _ now a ha with ⟨hn, -⟩ | ⟨hn, hb⟩ | ⟨hn, -⟩
    · rw [haname] at hn; exact absurd hn (by decide)
    · exact hdis _ h hb
    · rw [haname] at hn; exact absurd hn (by decide)
  · rcases checkBudgets_error_enabled _ now _ heq with ⟨hn, -⟩ | ⟨hn, -⟩ | ⟨-, hb⟩
    · exact absurd hn (by decide)
    · exact absurd hn (by decide)
    · exact hdis _ h hb
  · rcases checkBudgets_alert_enabled _ now a ha with ⟨hn, -⟩ | ⟨hn, -⟩ | ⟨hn, hb⟩
    · rw [haname] at hn; exact absurd hn (by decide)
    · rw [haname] at hn; exact absurd hn (by decide)
    · exact hdis _ h hb

theorem zero_budget_disables_window_witness :
    (some (0:ℚ) = none ∨ some (0:ℚ) = some 0) ∧
    ((record
        { daily_budget := some 0, weekly_budget := none, monthly_budget := none,
          alert_threshold := 4/5, has_on_alert := true, entries := [],
          alerted_daily := false, alerted_weekly := false,
          alerted_monthly := false }
        0 "openai" "gpt-4" 1000000 1000000 100 100).error ≠ some "daily" ∧
      ∀ a ∈ (record
        { daily_budget := some 0, weekly_budget := none, monthly_budget := none,
          alert_threshold := 4/5, has_on_alert := true, entries := [],
          alerted_daily := false, alerted_weekly := false,
          alerted_monthly := false }
        0 "openai" "gpt-4" 1000000 1000000 100 100).alerts, a.1 ≠ "daily") :=
  ⟨Or.inr rfl,
    (zero_or_none_budget_disables_window
      { daily_budget := some 0, weekly_budget := none, monthly_budget := none,
        alert_threshold := 4/5, has_on_alert := true, entries := [],
        alerted_daily := false, alerted_weekly := false,
        alerted_monthly := false }
      0 "openai" "gpt-4" 1000000 1000000 100 100).1 (Or.inr rfl)⟩

/- ### Key masking (src/src/agent_rate_limiter/key_manager.py KeyState.masked,
src/src/agent_rate_limiter/providers.py BaseProvider.mask_key) -/

/-- `KeyState.masked` / `BaseProvider.mask_key`: a secret (sequence of
characters) of length ≤ 8 masks to `"***"`; otherwise to
`key[:4] + "..." + key[-4:]`. -/
def maskKey (key : List Char) : List Char :=
  if key.length ≤ 8 then ['*', '*', '*']
  else key.take 4 ++ ['.', '.', '.'] ++ key.drop (key.length - 4)

/-- C9.  For a secret of length ≥ 9 the fingerprint has length 11, is the
first four characters, the `...` separator and the last four characters,
every one of its characters comes from the first four, the last four or the
separator (so none of the middle characters enters it), and it depends only
on the first and last four characters; for length < 9 it is `"***"`. -/
theorem mask_key_fingerprint (key : List Char) :
    (9 ≤ key.length →
      (maskKey key).length = 11 ∧
      maskKey key = key.take 4 ++ ['.', '.', '.'] ++ key.drop (key.length - 4) ∧
      (∀ c ∈ maskKey key,
        c ∈ key.take 4 ∨ c ∈ key.drop (key.length - 4) ∨ c = '.') ∧
      (∀ key2 : List Char, key2.length = key.length →
        key2.take 4 = key.take 4 →
        key2.drop (key2.length - 4) = key.drop (key.length - 4) →
        maskKey key2 = maskKey key)) ∧
    (key.length < 9 → maskKey key = ['*', '*', '*']) := by
  constructor
  · intro h9
    have hle : ¬ key.length ≤ 8 := by omega
    refine ⟨?_, ?_, ?_, ?_⟩
    · simp only [maskKey, hle, if_false]
      simp only [List.length_append, List.length_take, List.length_drop,
        List.length_cons, List.length_nil]
      omega
    · simp [maskKey, hle]
    · intro c hc
      simp only [maskKey, hle, if_false, List.mem_append] at hc
      rcases hc with (hc | hc) | hc
      · exact Or.inl hc
      · right; right; simpa using hc
      · exact Or.inr (Or.inl hc)
    · intro key2 hlen htake hdrop
      have hle2 : ¬ key2.length ≤ 8 := by omega
      simp only [maskKey, hle, hle2, if_false]
      rw [htake, hdrop]
  · intro h9
    have h8 : key.length ≤ 8 := by omega
    simp [maskKey, h8]

theorem mask_key_fingerprint_witness :
    9 ≤ (['s', 'k', '1', '2', '3', '4', '5', '6', '7'] : List Char).length ∧
    (maskKey ['s', 'k', '1', '2', '3', '4', '5', '6', '7']).length = 11 :=
  ⟨by decide,
    ((mask_key_fingerprint ['s', 'k', '1', '2', '3', '4', '5', '6', '7']).1
      (by decide)).1⟩

/- ### Key management (src/src/agent_rate_limiter/key_manager.py,
src/src/agent_rate_limiter/models.py) -/

/-- `RateLimitInfo` (models.py): the normalized limit snapshot.
`reset_time` is an absolute wall-clock instant, `retry_after` seconds. -/
structure RateLimitInfo where
  requests_remaining : Option ℤ := none
  requests_limit : Option ℤ := none
  tokens_remaining : Option ℤ := none
  tokens_limit : Option ℤ := none
  reset_time : Option ℚ := none
  retry_after : Option ℚ := none
  deriving Repr, DecidableEq

/-- `KeyState` (key_manager.py): per-key tracking state. -/
structure KeyState where
  key : String
  requests_made : ℕ := 0
  tokens_used : ℕ := 0
  last_used : Option ℚ := none
  last_rate_limit : Option ℚ := none
  cooldown_until : Option ℚ := none
  rate_limit_info : Option RateLimitInfo := none
  deriving Repr, DecidableEq

/-- `KeyState.is_on_cooldown`: true when `cooldown_until` is set and the
current time is before it. -/
def isOnCooldown (ks : KeyState) (now : ℚ) : Bool :=
  match ks.cooldown_until with
  | none => false
  | some t => now < t

/-- `KeyManager` state: the key list, the configured cooldown and the
round-robin cursor. -/
structure KeyManager where
  keys : List KeyState
  cooldown_seconds : ℚ
  current_index : ℕ
  deriving Repr, DecidableEq

/-- `KeyManager._find_key`: first key state whose key equals `k`. -/
def findKeyState (km : KeyManager) (k : String) : Option KeyState :=
  km.keys.find? (fun ks => ks.key = k)

/-- Replace the first element satisfying `p` (Python mutates the object
returned by `_find_key` in place). -/
def updateFirst (p : α → Bool) (f : α → α) : List α → List α
  | [] => []
  | x :: xs => if p x then f x :: xs else x :: updateFirst p f xs

/-- The cooldown duration chosen by `KeyManager.report_rate_limit`:
`retry_after` when the snapshot is present and `retry_after` is truthy
(not None and nonzero); else `max(reset_time - now, cooldown_seconds)`
when `reset_time` is present; else `cooldown_seconds`. -/
def cooldownDelta (cd now : ℚ) : Option RateLimitInfo → ℚ
  | none => cd
  | some i =>
    match i.retry_after with
    | some r =>
      if r ≠ 0 then r
      else
        match i.reset_time with
        | some rt => max (rt - now) cd
        | none => cd
    | none =>
      match i.reset_time with
      | some rt => max (rt - now) cd
      | none => cd

/-- `KeyManager.report_rate_limit`: when the key is known, set
`last_rate_limit := now`, store the snapshot, and set
`cooldown_until := now + cooldownDelta`. -/
def reportRateLimit (km : KeyManager) (now : ℚ) (k : String)
    (info : Option RateLimitInfo) : KeyManager :=
  { km with
      keys := updateFirst (fun ks => ks.key = k)
        (fun ks =>
          { ks with
              last_rate_limit := some now,
              rate_limit_info := info,
              cooldown_until :=
                some (now + cooldownDelta km.cooldown_seconds now info) })
        km.keys }

lemma updateFirst_find? (p : α → Bool) (f : α → α)
    (hpf : ∀ x, p (f x) = p x) :
    ∀ l : List α, (∃ x ∈ l, p x = true) →
      ∃ x, l.find? p = some x ∧ (updateFirst p f l).find? p = some (f x) := by
  intro l
  induction l with
  | nil => rintro ⟨x, hx, -⟩; simp at hx
  | cons a tl ih =>
    intro hex
    by_cases ha : p a = true
    · refine ⟨a, ?_, ?_⟩
      · simp [List.find?, ha]
      · simp [updateFirst, ha, List.find?, hpf a]
    · have hex' : ∃ x ∈ tl, p x = true := by
        rcases hex with ⟨x, hx, hpx⟩
        rcases List.mem_cons.mp hx with rfl | hx'
        · exact absurd hpx ha
        · exact ⟨x, hx', hpx⟩
      obtain ⟨x, hfind, hfind'⟩ := ih hex'
      refine ⟨x, ?_, ?_⟩
      · simp [List.find?, ha, hfind]
      · simp [updateFirst, ha, List.find?, hfind']

/-- A one-key manager used to exercise `report_rate_limit` concretely. -/
def sampleKeyManager : KeyManager :=
  { keys := [{ key := "k1" }], cooldown_seconds := 60, current_index := 0 }

/-- C3 counterexample.  The claim says the cooldown duration is
`snapshot.retry_after` whenever it is present; but `retry_after = 0.0` is
present yet falsy, so the code falls through to the default cooldown:
with defaultCooldown 60 at now = 100 the key's `cooldown_until` becomes
160, not the claimed 100 + 0. -/
theorem report_rate_limit_zero_retry_after_counterexample :
    ((findKeyState
        (reportRateLimit sampleKeyManager 100 "k1"
          (some { retry_after := some 0 }))
        "k1").map (fun ks => ks.cooldown_until)) = some (some 160) ∧
    some (some ((160 : ℚ))) ≠ some (some ((100 : ℚ) + 0)) := by
  constructor
  · norm_num [sampleKeyManager, findKeyState, reportRateLimit, updateFirst,
      cooldownDelta, List.find?]
  · norm_num

/-- C3 (amended).  For a key known to the manager, `report_rate_limit`
sets that key's `cooldown_until` to `now + D` where D is, in precedence:
`snapshot.retry_after` when present and nonzero; else
`max(snapshot.reset_time - now, defaultCooldown)` when `reset_time` is
present; else `defaultCooldown`; and D is nonnegative provided any given
`retry_after` is nonnegative and the configured cooldown is nonnegative. -/
theorem report_rate_limit_cooldown (km : KeyManager) (now : ℚ) (k : String)
    (info : Option RateLimitInfo)
    (hk : ∃ ks ∈ km.keys, ks.key = k)
    (hra : ∀ i ∈ info, ∀ r ∈ i.retry_after, 0 ≤ r)
    (hcd : 0 ≤ km.cooldown_seconds) :
    ∃ D, 0 ≤ D ∧
      (D = match info with
        | none => km.cooldown_seconds
        | some i =>
          match i.retry_after with
          | some r =>
            if r ≠ 0 then r
            else
              match i.reset_time with
              | some rt => max (rt - now) km.cooldown_seconds
              | none => km.cooldown_seconds
          | none =>
            match i.reset_time with
            | some rt => max (rt - now) km.cooldown_seconds
            | none => km.cooldown_seconds) ∧
      ∃ ks, findKeyState (reportRateLimit km now k info) k = some ks ∧
        ks.cooldown_until = some (now + D) := by
  obtain ⟨ks0, hmem, hkey⟩ := hk
  have hk' : ∃ x ∈ km.keys,
      (fun ks : KeyState => decide (ks.key = k)) x = true :=
    ⟨ks0, hmem, by simp [hkey]⟩
  obtain ⟨x, hfind, hfind'⟩ :=
    updateFirst_find? (fun ks : KeyState => decide (ks.key = k))
      (fun ks =>
        { ks with
            last_rate_limit := some now,
            rate_limit_info := info,
            cooldown_until :=
              some (now + cooldownDelta km.cooldown_seconds now info) })
      (fun x => rfl) km.keys hk'
  refine ⟨cooldownDelta km.cooldown_seconds now info, ?_, ?_, ?_⟩
  · cases info with
    | none => simpa [cooldownDelta] using hcd
    | some i =>
      cases hr : i.retry_after with
      | none =>
        cases hrt : i.reset_time with
        | none => simpa [cooldownDelta, hr, hrt] using hcd
        | some rt =>
          simp only [cooldownDelta, hr, hrt]
          exact le_trans hcd (le_max_right _ _)
      | some r =>
        by_cases hr0 : r = 0
        · cases hrt : i.reset_time with
          | none => simpa [cooldownDelta, hr, hr0, hrt] using hcd
          | some rt =>
            simp only [cooldownDelta, hr, hr0, hrt, ne_eq,
              not_true_eq_false, if_false]
            exact le_trans hcd (le_max_right _ _)
        · simpa [cooldownDelta, hr, hr0] using hra i rfl r hr
  · cases info with
    | none => rfl
    | some i => rfl
  · refine ⟨{ x with
        last_rate_limit := some now,
        rate_limit_info := info,
        cooldown_until :=
          some (now + cooldownDelta km.cooldown_seconds now info) }, ?_, rfl⟩
    simpa [findKeyState, reportRateLimit] using hfind'

theorem report_rate_limit_cooldown_witness :
    (∃ ks ∈ sampleKeyManager.keys, ks.key = "k1") ∧
    (∀ i ∈ (some { retry_after := some 5 } : Option RateLimitInfo),
      ∀ r ∈ i.retry_after, (0:ℚ) ≤ r) ∧
    (0:ℚ) ≤ sampleKeyManager.cooldown_seconds ∧
    (∃ D, (0:ℚ) ≤ D ∧
      (D = match (some { retry_after := some 5 } : Option RateLimitInfo) with
        | none => sampleKeyManager.cooldown_seconds
        | some i =>
          match i.retry_after with
          | some r =>
            if r ≠ 0 then r
            else
              match i.reset_time with
              | some rt => max (rt - (100:ℚ)) sampleKeyManager.cooldown_seconds
              | none => sampleKeyManager.cooldown_seconds
          | none =>
            match i.reset_time with
            | some rt => max (rt - (100:ℚ)) sampleKeyManager.cooldown_seconds
            | none => sampleKeyManager.cooldown_seconds) ∧
      ∃ ks, findKeyState
          (reportRateLimit sampleKeyManager 100 "k1"
            (some { retry_after := some 5 })) "k1" = some ks ∧
        ks.cooldown_until = some ((100:ℚ) + D)) := by
  have hk : ∃ ks ∈ sampleKeyManager.keys, ks.key = "k1" :=
    ⟨{ key := "k1" }, by simp [sampleKeyManager], rfl⟩
  have hra : ∀ i ∈ (some { retry_after := some 5 } : Option RateLimitInfo),
      ∀ r ∈ i.retry_after, (0:ℚ) ≤ r := by
    intro i hi r hr
    injection hi with h
    subst h
    injection hr with h2
    subst h2
    norm_num
  have hcd : (0:ℚ) ≤ sampleKeyManager.cooldown_seconds := by
    norm_num [sampleKeyManager]
  exact ⟨hk, hra, hcd,
    report_rate_limit_cooldown sampleKeyManager 100 "k1"
      (some { retry_after := some 5 }) hk hra hcd⟩

/- ### Authorization header attachment
(src/src/agent_rate_limiter/limiter.py, RateLimiter.request) -/

/-- Python `key in dict` on the header dict. -/
def dictContains (h : List (String × String)) (k : String) : Bool :=
  h.any (fun p => p.1 = k)

/-- Python `dict[k] = v`: overwrite an existing binding, else append. -/
def dictSet (h : List (String × String)) (k v : String) :
    List (String × String) :=
  if dictContains h k then h.map (fun p => if p.1 = k then (k, v) else p)
  else h ++ [(k, v)]

/-- The header step of `RateLimiter.request`:
`if "Authorization" not in headers and "authorization" not in headers:
headers["Authorization"] = f"Bearer {key}"`. -/
def attachAuthHeader (headers : List (String × String)) (key : String) :
    List (String × String) :=
  if ¬ dictContains headers "Authorization" = true ∧
      ¬ dictContains headers "authorization" = true then
    dictSet headers "Authorization" ("Bearer " ++ key)
  else headers

/-- C8 counterexample.  The claim says the presence check is
case-insensitive; the code checks only the exact spellings
`"Authorization"` and `"authorization"`, so a caller-supplied
`AUTHORIZATION` header does not suppress the Bearer header. -/
theorem attach_auth_uppercase_counterexample :
    attachAuthHeader [("AUTHORIZATION", "token t")] "k" =
      [("AUTHORIZATION", "token t"), ("Authorization", "Bearer " ++ "k")] ∧
    attachAuthHeader [("AUTHORIZATION", "token t")] "k" ≠
      [("AUTHORIZATION", "token t")] := by
  constructor <;> decide

/-- C8 (amended).  The engine adds `Authorization: Bearer <secret>` unless
the caller already supplied a header named exactly `Authorization` or
exactly `authorization` (other casings do not suppress it); when one of
those two spellings is present, the headers pass through unchanged. -/
theorem attach_auth_header_spellings (headers : List (String × String))
    (key : String) :
    ((dictContains headers "Authorization" = true ∨
      dictContains headers "authorization" = true) →
      attachAuthHeader headers key = headers) ∧
    (dictContains headers "Authorization" = false →
      dictContains headers "authorization" = false →
      attachAuthHeader headers key =
        headers ++ [("Authorization", "Bearer " ++ key)]) := by
  constructor
  · intro h
    simp only [attachAuthHeader]
    rcases h with h | h <;> simp [h]
  · intro h1 h2
    simp only [attachAuthHeader, h1, h2]
    simp [dictSet, h1]

theorem attach_auth_header_spellings_witness :
    dictContains [("content-type", "application/json")] "Authorization" =
      false ∧
    dictContains [("content-type", "application/json")] "authorization" =
      false ∧
    attachAuthHeader [("content-type", "application/json")] "k" =
      [("content-type", "application/json")] ++
        [("Authorization", "Bearer " ++ "k")] :=
  ⟨by decide, by decide,
    (attach_auth_header_spellings [("content-type", "application/json")]
      "k").2 (by decide) (by decide)⟩

/- ### Token bucket (src/agent_rate_limiter/core/limiter.py) -/

/-- `TokenBucket` state: `capacity` is an int in the source, `tokens` a
float, `last_update` the last refill instant. -/
structure TokenBucket where
  capacity : ℤ
  refill_rate : ℚ
  tokens : ℚ
  last_update : ℚ
  deriving Repr, DecidableEq

/-- `__post_init__`: tokens start at capacity, `last_update` at creation
time. -/
def TokenBucket.init (capacity : ℤ) (refill_rate : ℚ) (t0 : ℚ) :
    TokenBucket :=
  { capacity := capacity, refill_rate := refill_rate,
    tokens := (capacity : ℚ), last_update := t0 }

/-- `TokenBucket._refill`: add `elapsed * refill_rate`, clamp to capacity,
advance `last_update`. -/
def TokenBucket.refill (b : TokenBucket) (now : ℚ) : TokenBucket :=
  { b with
      tokens := min (b.capacity : ℚ) (b.tokens + (now - b.last_update) *
        b.refill_rate),
      last_update := now }

/-- `TokenBucket.consume`: refill, then subtract if enough tokens. -/
def TokenBucket.consume (b : TokenBucket) (now : ℚ) (n : ℕ) :
    TokenBucket × Bool :=
  let b2 := b.refill now
  if (n : ℚ) ≤ b2.tokens then ({ b2 with tokens := b2.tokens - n }, true)
  else (b2, false)

/-- `TokenBucket.wait_time`: refill, then report the wait (no
consumption). -/
def TokenBucket.waitTime (b : TokenBucket) (now : ℚ) (n : ℕ) :
    TokenBucket × ℚ :=
  let b2 := b.refill now
  if (n : ℚ) ≤ b2.tokens then (b2, 0)
  else (b2, ((n : ℚ) - b2.tokens) / b.refill_rate)

/-- One observation of the bucket: a `consume(n)` or `wait_time(n)` call. -/
inductive BucketOp where
  | consume (n : ℕ)
  | wait (n : ℕ)
  deriving Repr, DecidableEq

/-- The state reached by one call at instant `now`. -/
def stepBucket (b : TokenBucket) (op : BucketOp) (now : ℚ) : TokenBucket :=
  match op with
  | .consume n => (b.consume now n).1
  | .wait n => (b.waitTime now n).1

/-- The trace of states after each call of an interleaving. -/
def runBucket (b : TokenBucket) : List (BucketOp × ℚ) → List TokenBucket
  | [] => []
  | (op, t) :: rest =>
    let b2 := stepBucket b op t
    b2 :: runBucket b2 rest

lemma stepBucket_capacity (b : TokenBucket) (op : BucketOp) (now : ℚ) :
    (stepBucket b op now).capacity = b.capacity := by
  cases op with
  | consume n =>
    simp only [stepBucket, TokenBucket.consume]
    split <;> rfl
  | wait n =>
    simp only [stepBucket, TokenBucket.waitTime]
    split <;> rfl

lemma stepBucket_refill_rate (b : TokenBucket) (op : BucketOp) (now : ℚ) :
    (stepBucket b op now).refill_rate = b.refill_rate := by
  cases op with
  | consume n =>
    simp only [stepBucket, TokenBucket.consume]
    split <;> rfl
  | wait n =>
    simp only [stepBucket, TokenBucket.waitTime]
    split <;> rfl

lemma stepBucket_last_update (b : TokenBucket) (op : BucketOp) (now : ℚ) :
    (stepBucket b op now).last_update = now := by
  cases op with
  | consume n =>
    simp only [stepBucket, TokenBucket.consume]
    split <;> rfl
  | wait n =>
    simp only [stepBucket, TokenBucket.waitTime]
    split <;> rfl

lemma stepBucket_tokens_bounds (b : TokenBucket) (op : BucketOp) (now : ℚ)
    (hrate : 0 ≤ b.refill_rate) (hcap : 0 ≤ (b.capacity : ℚ))
    (h0 : 0 ≤ b.tokens) (ht : b.last_update ≤ now) :
    0 ≤ (stepBucket b op now).tokens ∧
      (stepBucket b op now).tokens ≤ (b.capacity : ℚ) := by
  have href0 : 0 ≤ (b.refill now).tokens := by
    simp only [TokenBucket.refill]
    refine le_min hcap ?_
    have : 0 ≤ (now - b.last_update) * b.refill_rate :=
      mul_nonneg (by linarith) hrate
    linarith
  have hrefc : (b.refill now).tokens ≤ (b.capacity : ℚ) := by
    simp only [TokenBucket.refill]
    exact min_le_left _ _
  cases op with
  | consume n =>
    simp only [stepBucket, TokenBucket.consume]
    split
    · constructor
      · simp only
        rename_i h
        have hn : (0:ℚ) ≤ (n:ℚ) := by positivity
        linarith
      · simp only
        have hn : (0:ℚ) ≤ (n:ℚ) := by positivity
        linarith
    · exact ⟨href0, hrefc⟩
  | wait n =>
    simp only [stepBucket, TokenBucket.waitTime]
    split <;> exact ⟨href0, hrefc⟩

lemma runBucket_inv (ops : List (BucketOp × ℚ)) :
    ∀ b : TokenBucket, 0 ≤ b.refill_rate → 0 ≤ (b.capacity : ℚ) →
      0 ≤ b.tokens → b.tokens ≤ (b.capacity : ℚ) →
      List.Chain (· ≤ ·) b.last_update (ops.map Prod.snd) →
      (∀ s ∈ runBucket b ops,
        0 ≤ s.tokens ∧ s.tokens ≤ (b.capacity : ℚ)) ∧
      List.Chain (· ≤ ·) b.last_update
        ((runBucket b ops).map (fun s => s.last_update)) := by
  induction ops with
  | nil =>
    intro b _ _ _ _ _
    exact ⟨by simp [runBucket], by simp [runBucket, List.Chain.nil]⟩
  | cons hd rest ih =>
    intro b hrate hcap h0 h1 hmono
    obtain ⟨op, t⟩ := hd
    rw [List.map_cons, List.chain_cons] at hmono
    obtain ⟨hbt, hchain⟩ := hmono
    set b2 := stepBucket b op t with hb2
    have hfields : b2.capacity = b.capacity ∧ b2.refill_rate = b.refill_rate ∧
        b2.last_update = t :=
      ⟨stepBucket_capacity b op t, stepBucket_refill_rate b op t,
        stepBucket_last_update b op t⟩
    have hbounds : 0 ≤ b2.tokens ∧ b2.tokens ≤ (b.capacity : ℚ) :=
      stepBucket_tokens_bounds b op t hrate hcap h0 hbt
    have hchain2 : List.Chain (· ≤ ·) b2.last_update (rest.map Prod.snd) := by
      rw [hfields.2.2]; exact hchain
    have hres := ih b2 (by rw [hfields.2.1]; exact hrate)
      (by rw [hfields.1]; exact hcap) hbounds.1
      (by rw [hfields.1]; exact hbounds.2) hchain2
    constructor
    · intro s hs
      simp only [runBucket, List.mem_cons] at hs
      rcases hs with rfl | hs
      · exact hbounds
      · have := hres.1 s hs
        rw [hfields.1] at this
        exact this
    · simp only [runBucket, List.map_cons, List.chain_cons]
      refine ⟨by rw [hfields.2.2]; exact hbt, hres.2⟩

/-- C7.  For a bucket created with positive capacity and refill rate, along
any interleaving of `consume(n)` and `wait_time(n)` calls at non-decreasing
observation instants, every observed state satisfies
`0 ≤ tokens ≤ capacity`, and `last_update` never decreases. -/
theorem token_bucket_invariant (cap : ℤ) (rate t0 : ℚ)
    (ops : List (BucketOp × ℚ)) (hcap : 0 < cap) (hrate : 0 < rate)
    (hmono : List.Chain (· ≤ ·) t0 (ops.map Prod.snd)) :
    (∀ s ∈ runBucket (TokenBucket.init cap rate t0) ops,
      0 ≤ s.tokens ∧ s.tokens ≤ (cap : ℚ)) ∧
    List.Chain (· ≤ ·) t0
      ((runBucket (TokenBucket.init cap rate t0) ops).map
        (fun s => s.last_update)) := by
  have hcapQ : (0:ℚ) ≤ (cap : ℚ) := by exact_mod_cast le_of_lt hcap
  exact runBucket_inv ops (TokenBucket.init cap rate t0) (le_of_lt hrate)
    hcapQ hcapQ le_rfl hmono

theorem token_bucket_invariant_witness :
    (0:ℤ) < 10 ∧ (0:ℚ) < 10 ∧
    List.Chain (· ≤ ·) (0:ℚ)
      ([(BucketOp.consume 10, (0:ℚ)), (BucketOp.wait 1, 1),
        (BucketOp.consume 5, 2)].map Prod.snd) ∧
    ((∀ s ∈ runBucket (TokenBucket.init 10 10 0)
        [(BucketOp.consume 10, 0), (BucketOp.wait 1, 1),
          (BucketOp.consume 5, 2)],
        0 ≤ s.tokens ∧ s.tokens ≤ ((10:ℤ) : ℚ)) ∧
      List.Chain (· ≤ ·) (0:ℚ)
        ((runBucket (TokenBucket.init 10 10 0)
          [(BucketOp.consume 10, 0), (BucketOp.wait 1, 1),
            (BucketOp.consume 5, 2)]).map (fun s => s.last_update))) :=
  ⟨by norm_num, by norm_num,
    by simp [List.chain_cons],
    token_bucket_invariant 10 10 0 _ (by norm_num) (by norm_num)
      (by simp [List.chain_cons])⟩

/- ### Round-robin key selection
(src/src/agent_rate_limiter/key_manager.py, get_key / _get_round_robin) -/

/-- The in-place mutation `get_key` performs on the chosen state:
`last_used := now; requests_made += 1`. -/
def touchKey (now : ℚ) (ks : KeyState) : KeyState :=
  { ks with last_used := some now, requests_made := ks.requests_made + 1 }

/-- `KeyManager.get_key` under `RotationStrategy.ROUND_ROBIN`: filter the
states not on cooldown; if none, return the empty sentinel and leave the
state untouched; otherwise scan offsets `i` from the cursor
(`idx = (cursor + i) % N`) for the first state contained in the available
list, advance the cursor to `(idx + 1) % N`, touch the state and return its
key.  The trailing `return available[0]` fallback of `_get_round_robin`
(unreachable when the available list is non-empty) touches the first state
equal to `available[0]`. -/
def getKeyRoundRobin (km : KeyManager) (now : ℚ) : Option String × KeyManager :=
  let available := km.keys.filter (fun ks => ! isOnCooldown ks now)
  if available.isEmpty then (none, km)
  else
    match (List.range km.keys.length).find? (fun i =>
      match km.keys[(km.current_index + i) % km.keys.length]? with
      | some ks => decide (ks ∈ available)
      | none => false) with
    | some i =>
      let idx := (km.current_index + i) % km.keys.length
      match km.keys[idx]? with
      | some ks =>
        (some ks.key,
          { km with
              current_index := (idx + 1) % km.keys.length,
              keys := km.keys.set idx (touchKey now ks) })
      | none => (none, km)
    | none =>
      match available.head? with
      | some a =>
        (some a.key,
          { km with
              keys := updateFirst (fun ks => ks == a) (touchKey now) km.keys })
      | none => (none, km)

lemma find?_of_first {α : Type} (p : α → Bool) :
    ∀ (l : List α) (i : ℕ) (hi : i < l.length),
      p (l.get ⟨i, hi⟩) = true →
      (∀ j (hj : j < i), p (l.get ⟨j, lt_trans hj hi⟩) = false) →
      l.find? p = some (l.get ⟨i, hi⟩) := by
  intro l
  induction l with
  | nil => intro i hi; simp at hi
  | cons a tl ih =>
    intro i hi hp hmin
    cases i with
    | zero =>
      simp only [List.get] at hp
      simp [List.find?, hp]
    | succ i' =>
      have ha : p a = false := by
        have := hmin 0 (Nat.succ_pos i')
        simpa using this
      simp only [List.find?, ha]
      have hi' : i' < tl.length := by
        simpa [List.length_cons, Nat.succ_lt_succ_iff] using hi
      have hp' : p (tl.get ⟨i', hi'⟩) = true := by
        simpa using hp
      have hmin' : ∀ j (hj : j < i'), p (tl.get ⟨j, lt_trans hj hi'⟩) = false := by
        intro j hj
        have := hmin (j + 1) (Nat.succ_lt_succ hj)
        simpa using this
      simpa using ih i' hi' hp' hmin'

/-- C5.  Under ROUND_ROBIN: when every key is on cooldown, `get_key`
returns the empty sentinel and changes no state; otherwise, if `i` is the
least offset from the cursor whose wrapped index holds a key not on
cooldown, `get_key` returns that key, advances the cursor to
`(chosen index + 1) mod N`, and records the use on the chosen state. -/
theorem get_key_round_robin (km : KeyManager) (now : ℚ) :
    ((∀ ks ∈ km.keys, isOnCooldown ks now = true) →
      getKeyRoundRobin km now = (none, km)) ∧
    (∀ i ks, i < km.keys.length →
      km.keys[(km.current_index + i) % km.keys.length]? = some ks →
      isOnCooldown ks now = false →
      (∀ j ks', j < i →
        km.keys[(km.current_index + j) % km.keys.length]? = some ks' →
        isOnCooldown ks' now = true) →
      getKeyRoundRobin km now =
        (some ks.key,
          { km with
              current_index :=
                ((km.current_index + i) % km.keys.length + 1) %
                  km.keys.length,
              keys := km.keys.set
                ((km.current_index + i) % km.keys.length)
                (touchKey now ks) })) := by
  constructor
  · intro hall
    have hemp : km.keys.filter (fun ks => ! isOnCooldown ks now) = [] := by
      rw [List.filter_eq_nil]
      intro ks hks
      simp [hall ks hks]
    simp [getKeyRoundRobin, hemp]
  · intro i ks hi hks hcool hmin
    have hN : 0 < km.keys.length := lt_of_le_of_lt (Nat.zero_le i) hi
    have hmem : ks ∈ km.keys := by
      obtain ⟨h, rfl⟩ := List.getElem?_eq_some.mp hks
      exact List.getElem_mem h
    have hav : ks ∈ km.keys.filter (fun ks => ! isOnCooldown ks now) := by
      rw [List.mem_filter]
      exact ⟨hmem, by simp [hcool]⟩
    have hne : (km.keys.filter (fun ks => ! isOnCooldown ks now)).isEmpty =
        false := by
      rcases h : (km.keys.filter (fun ks => ! isOnCooldown ks now)) with - | -
      · rw [h] at hav; simp at hav
      · rfl
    have hiR : i < (List.range km.keys.length).length := by simpa using hi
    have hpi : (fun j =>
        match km.keys[(km.current_index + j) % km.keys.length]? with
        | some ks' => decide (ks' ∈ km.keys) && ! isOnCooldown ks' now
        | none => false) ((List.range km.keys.length).get ⟨i, hiR⟩) =
          true := by
      simp only [List.get_range]
      rw [hks]
      simp [hmem, hcool]
    have hpj : ∀ j (hj : j < i),
        (fun j =>
          match km.keys[(km.current_index + j) % km.keys.length]? with
          | some ks' => decide (ks' ∈ km.keys) && ! isOnCooldown ks' now
          | none => false)
          ((List.range km.keys.length).get ⟨j, lt_trans hj hiR⟩) = false := by
      intro j hj
      simp only [List.get_range]
      have hjN : (km.current_index + j) % km.keys.length < km.keys.length :=
        Nat.mod_lt _ hN
      obtain ⟨ks', hks'⟩ : ∃ ks',
          km.keys[(km.current_index + j) % km.keys.length]? = some ks' :=
        ⟨_, List.getElem?_eq_getElem hjN⟩
      rw [hks']
      simp [hmin j ks' hj hks']
    have hfind := find?_of_first
      (fun j =>
        match km.keys[(km.current_index + j) % km.keys.length]? with
        | some ks' => decide (ks' ∈ km.keys) && ! isOnCooldown ks' now
        | none => false)
      (List.range km.keys.length) i hiR hpi hpj
    rw [List.get_range] at hfind
    simp [getKeyRoundRobin, hne, hfind, hks]

/-- A key parked on cooldown until t = 200. -/
def rrKeyOnCooldown : KeyState := { key := "a", cooldown_until := some 200 }

/-- A key with no cooldown. -/
def rrKeyFree : KeyState := { key := "b" }

/-- A two-key manager with the cursor at 0. -/
def rrManager : KeyManager :=
  { keys := [rrKeyOnCooldown, rrKeyFree], cooldown_seconds := 60,
    current_index := 0 }

theorem get_key_round_robin_witness :
    (1:ℕ) < rrManager.keys.length ∧
    rrManager.keys[(rrManager.current_index + 1) % rrManager.keys.length]? =
      some rrKeyFree ∧
    isOnCooldown rrKeyFree 100 = false ∧
    getKeyRoundRobin rrManager 100 =
      (some rrKeyFree.key,
        { rrManager with
            current_index :=
              ((rrManager.current_index + 1) % rrManager.keys.length + 1) %
                rrManager.keys.length,
            keys := rrManager.keys.set
              ((rrManager.current_index + 1) % rrManager.keys.length)
              (touchKey 100 rrKeyFree) }) := by
  have h1 : (1:ℕ) < rrManager.keys.length := by simp [rrManager]
  have h2 : rrManager.keys[(rrManager.current_index + 1) %
      rrManager.keys.length]? = some rrKeyFree := by
    simp [rrManager]
  have h3 : isOnCooldown rrKeyFree 100 = false := rfl
  have h4 : ∀ j ks', j < 1 →
      rrManager.keys[(rrManager.current_index + j) %
        rrManager.keys.length]? = some ks' →
      isOnCooldown ks' 100 = true := by
    intro j ks' hj hks'
    have hj0 : j = 0 := by omega
    subst hj0
    simp [rrManager] at hks'
    subst hks'
    norm_num [isOnCooldown, rrKeyOnCooldown]
  exact ⟨h1, h2, h3,
    (get_key_round_robin rrManager 100).2 1 rrKeyFree h1 h2 h3 h4⟩

/- ### OpenAI reset-header parsing
(src/src/agent_rate_limiter/providers.py, OpenAIProvider) -/

/-- Value of a run of decimal digits (used to model Python's `float()` and
`int()` builtins on the strings this module feeds them). -/
def digitsVal (s : List Char) : ℕ :=
  s.foldl (fun acc c => acc * 10 + (c.toNat - 48)) 0

/-- Python `float()` restricted to the digits-and-dots runs accumulated by
`_parse_reset_time` (the only shapes that reach it there): valid iff at
most one dot and at least one digit, value integer-part plus fraction;
anything else raises `ValueError`, modelled as `none`. -/
def pyNumDotFloat (s : List Char) : Option ℚ :=
  if (s.all fun c => c.isDigit || c = '.') ∧ s.count '.' ≤ 1 ∧
      s.any Char.isDigit then
    some ((digitsVal (s.takeWhile (fun c => c ≠ '.')) : ℚ) +
      (digitsVal ((s.dropWhile (fun c => c ≠ '.')).drop 1) : ℚ) /
        (10:ℚ) ^ ((s.dropWhile (fun c => c ≠ '.')).drop 1).length)
  else none

/-- The character loop of `OpenAIProvider._parse_reset_time`: digits and
dots accumulate in `current_num`; `h`, `m`, `s` with a pending number add
3600·v, 60·v, v seconds and clear it; any other character (including a
unit letter with no pending number) changes nothing.  The second
`elif char == "m"` branch of the source (the would-be `ms` handler) is
unreachable: the first `m` branch always matches first.  A `float()`
failure (`ValueError`) aborts the whole parse, modelled as `none`. -/
def parseResetLoop : List Char → ℚ → List Char → Option ℚ
  | [], secs, _ => some secs
  | c :: rest, secs, num =>
    if c.isDigit ∨ c = '.' then parseResetLoop rest secs (num ++ [c])
    else if c = 'h' ∧ num ≠ [] then
      match pyNumDotFloat num with
      | some v => parseResetLoop rest (secs + v * 3600) []
      | none => none
    else if c = 'm' ∧ num ≠ [] then
      match pyNumDotFloat num with
      | some v => parseResetLoop rest (secs + v * 60) []
      | none => none
    else if c = 's' ∧ num ≠ [] then
      match pyNumDotFloat num with
      | some v => parseResetLoop rest (secs + v) []
      | none => none
    else parseResetLoop rest secs num

/-- `_parse_reset_time` as a duration: the summed seconds when positive,
`none` otherwise (the source returns `None` unless `seconds > 0`). -/
def parseResetSeconds (s : List Char) : Option ℚ :=
  match parseResetLoop s 0 [] with
  | none => none
  | some secs => if 0 < secs then some secs else none

/-- Python `headers.get(k)` on the header dict. -/
def hget (headers : List (String × String)) (k : String) : Option String :=
  (headers.find? (fun p => p.1 = k)).map Prod.snd

/-- Python `a or b` on two optional strings (an empty string is falsy). -/
def pyOrStr (a b : Option String) : Option String :=
  match a with
  | some s => if s.isEmpty then b else some s
  | none => b

/-- Python `int()` on a header value: optional sign then digits. -/
def pyInt (s : List Char) : Option ℤ :=
  match s with
  | '-' :: rest =>
    if rest ≠ [] ∧ rest.all Char.isDigit then some (-(digitsVal rest : ℤ))
    else none
  | '+' :: rest =>
    if rest ≠ [] ∧ rest.all Char.isDigit then some ((digitsVal rest : ℤ))
    else none
  | l => if l ≠ [] ∧ l.all Char.isDigit then some ((digitsVal l : ℤ)) else none

/-- Python `float()` on a header value: optional sign then a
digits-and-dots run (the decimal forms `Retry-After` carries). -/
def pyFloatStr (s : String) : Option ℚ :=
  match s.data with
  | '-' :: rest => (pyNumDotFloat rest).map Neg.neg
  | '+' :: rest => pyNumDotFloat rest
  | l => pyNumDotFloat l

/-- `BaseProvider.get_retry_after`: read `retry-after` or `Retry-After`,
parse as float when truthy, else `None`. -/
def getRetryAfter (headers : List (String × String)) : Option ℚ :=
  match pyOrStr (hget headers "retry-after") (hget headers "Retry-After") with
  | some s => if s.isEmpty then none else pyFloatStr s
  | none => none

/-- `OpenAIProvider.parse_rate_limit_headers`: integer limit fields (a
failed parse leaves the field unset), the reset string taken from the
requests header `or` the tokens header, `_parse_reset_time` anchored at
`now` truncated to whole seconds (`replace(microsecond=0)`), and the
shared Retry-After. -/
def openAIParseRateLimitHeaders (headers : List (String × String))
    (now : ℚ) : RateLimitInfo :=
  { requests_remaining :=
      (hget headers "x-ratelimit-remaining-requests").bind
        (fun s => pyInt s.data),
    requests_limit :=
      (hget headers "x-ratelimit-limit-requests").bind
        (fun s => pyInt s.data),
    tokens_remaining :=
      (hget headers "x-ratelimit-remaining-tokens").bind
        (fun s => pyInt s.data),
    tokens_limit :=
      (hget headers "x-ratelimit-limit-tokens").bind
        (fun s => pyInt s.data),
    reset_time :=
      (match pyOrStr (hget headers "x-ratelimit-reset-requests")
          (hget headers "x-ratelimit-reset-tokens") with
        | some s =>
          if s.isEmpty then none
          else (parseResetSeconds s.data).map
            (fun d => ((⌊now⌋ : ℤ) : ℚ) + d)
        | none => none),
    retry_after := getRetryAfter headers }

/-- C4.  The example headers parse to `requests_limit = 10000`,
`requests_remaining = 9999` and `reset_time = now + 90 s` (anchored at
whole seconds) as the claim states; but the claimed `ms = milliseconds`
unit does not exist in the code: `"250ms"` is parsed as 250 minutes
(15000 s) because the `m` branch fires first and the trailing `s` then has
no pending number (the source's `ms` branch is dead code), instead of the
claimed 0.25 s. -/
theorem openai_reset_parse_example_and_ms_minutes :
    (openAIParseRateLimitHeaders
      [("x-ratelimit-limit-requests", "10000"),
        ("x-ratelimit-remaining-requests", "9999"),
        ("x-ratelimit-reset-requests", "1m30s")] 1000).requests_limit =
      some 10000 ∧
    (openAIParseRateLimitHeaders
      [("x-ratelimit-limit-requests", "10000"),
        ("x-ratelimit-remaining-requests", "9999"),
        ("x-ratelimit-reset-requests", "1m30s")] 1000).requests_remaining =
      some 9999 ∧
    (openAIParseRateLimitHeaders
      [("x-ratelimit-limit-requests", "10000"),
        ("x-ratelimit-remaining-requests", "9999"),
        ("x-ratelimit-reset-requests", "1m30s")] 1000).reset_time =
      some (1000 + 90) ∧
    parseResetSeconds "250ms".data = some 15000 ∧
    some ((15000 : ℚ)) ≠ some ((250 : ℚ) / 1000) := by
  have hsec : parseResetSeconds "1m30s".data = some 90 ∧
      parseResetSeconds "250ms".data = some 15000 := by
    constructor <;>
    · norm_num [parseResetSeconds, parseResetLoop, pyNumDotFloat, digitsVal,
        show ('1' : Char).isDigit = true from by decide,
        show ('3' : Char).isDigit = true from by decide,
        show ('0' : Char).isDigit = true from by decide,
        show ('2' : Char).isDigit = true from by decide,
        show ('5' : Char).isDigit = true from by decide,
        show ('m' : Char).isDigit = false from by decide,
        show ('s' : Char).isDigit = false from by decide,
        show ¬(('m' : Char) = '.') from by decide,
        show ¬(('s' : Char) = '.') from by decide,
        show ¬(('s' : Char) = 'h') from by decide,
        show ¬(('m' : Char) = 'h') from by decide,
        show ¬(('s' : Char) = 'm') from by decide,
        show ¬(('m' : Char) = 's') from by decide,
        show ¬(('1' : Char) = '.') from by decide,
        show ¬(('3' : Char) = '.') from by decide,
        show ¬(('0' : Char) = '.') from by decide,
        show ¬(('2' : Char) = '.') from by decide,
        show ¬(('5' : Char) = '.') from by decide,
        show (('1' : Char) == '.') = false from by decide,
        show (('3' : Char) == '.') = false from by decide,
        show (('0' : Char) == '.') = false from by decide,
        show (('2' : Char) == '.') = false from by decide,
        show (('5' : Char) == '.') = false from by decide,
        List.count_cons, List.count_nil,
        show ¬((['3','0'] : List Char) = []) from by decide,
        show ¬((['2','5','0'] : List Char) = []) from by decide,
        show ('1' : Char).toNat - 48 = 1 from by decide,
        show ('3' : Char).toNat - 48 = 3 from by decide,
        show ('0' : Char).toNat - 48 = 0 from by decide,
        show ('2' : Char).toNat - 48 = 2 from by decide,
        show ('5' : Char).toNat - 48 = 5 from by decide]
  refine ⟨by decide, by decide, ?_, hsec.2, by norm_num⟩
  have hr : pyOrStr
      (hget [("x-ratelimit-limit-requests", "10000"),
        ("x-ratelimit-remaining-requests", "9999"),
        ("x-ratelimit-reset-requests", "1m30s")] "x-ratelimit-reset-requests")
      (hget [("x-ratelimit-limit-requests", "10000"),
        ("x-ratelimit-remaining-requests", "9999"),
        ("x-ratelimit-reset-requests", "1m30s")] "x-ratelimit-reset-tokens") =
      some "1m30s" := by decide
  simp only [openAIParseRateLimitHeaders, hr]
  norm_num [hsec.1, show "1m30s".isEmpty = false from by decide]

/- ### Priority queue (src/src/agent_rate_limiter/queue.py) -/

/-- `QueueItem`: the two dataclass compare fields (`priority`, `timestamp`)
plus the arrival number `seq` (from `_request_counter`; compare=False). -/
structure QueueItem where
  priority : ℤ
  timestamp : ℚ
  seq : ℕ
  deriving Repr, DecidableEq

/-- `dataclass(order=True)` comparison `<`: lexicographic on the compare
fields (priority, timestamp). -/
def itemLt (a b : QueueItem) : Prop :=
  a.priority < b.priority ∨
    (a.priority = b.priority ∧ a.timestamp < b.timestamp)

instance (a b : QueueItem) : Decidable (itemLt a b) :=
  inferInstanceAs (Decidable (_ ∨ _))

/-- Non-strict companion of `itemLt` (sortedness of the queue list). -/
def itemLE (a b : QueueItem) : Prop := ¬ itemLt b a

/-- The dequeue ordering the spec asserts: lexicographic
(priority, arrivalSeq). -/
def seqLex (a b : QueueItem) : Prop :=
  a.priority < b.priority ∨ (a.priority = b.priority ∧ a.seq ≤ b.seq)

instance (a b : QueueItem) : Decidable (seqLex a b) :=
  inferInstanceAs (Decidable (_ ∨ _))

/-- The binary search of `PriorityQueue._insert_sorted`:
`while lo < hi: mid = (lo+hi)//2; if q[mid] < item: lo = mid+1 else hi = mid`. -/
def bisectLoop (q : List QueueItem) (x : QueueItem) (lo hi : ℕ) : ℕ :=
  if h : lo < hi then
    if itemLt (q.getD ((lo + hi) / 2) ⟨0, 0, 0⟩) x then
      bisectLoop q x ((lo + hi) / 2 + 1) hi
    else bisectLoop q x lo ((lo + hi) / 2)
  else lo
termination_by hi - lo
decreasing_by
  · omega
  · omega

/-- Python `list.insert(i, x)` (appends when `i ≥ len`). -/
def insertIdxAt : ℕ → QueueItem → List QueueItem → List QueueItem
  | 0, x, q => x :: q
  | _ + 1, x, [] => [x]
  | n + 1, x, a :: q => a :: insertIdxAt n x q

/-- `PriorityQueue._insert_sorted`: insert at the binary-search position. -/
def insertSorted (q : List QueueItem) (x : QueueItem) : List QueueItem :=
  insertIdxAt (bisectLoop q x 0 q.length) x q

/-- One queue operation: `put(priority)` at a wall-clock instant (the
item's `timestamp = time.time()`), or `get()`. -/
inductive QOp where
  | put (priority : ℤ) (timestamp : ℚ)
  | get
  deriving Repr, DecidableEq

/-- `PriorityQueue` state: bound, the sorted item list, `_request_counter`,
and the log of dequeued items. -/
structure QueueState where
  max_size : ℕ
  queue : List QueueItem
  counter : ℕ
  dequeued : List QueueItem
  deriving Repr, DecidableEq

/-- `put` (raises QueueFull and changes nothing when at capacity,
otherwise increments the counter and inserts in sorted position) and `get`
(pops the head, or returns None leaving the state unchanged). -/
def stepQueue (s : QueueState) : QOp → QueueState
  | .put p t =>
    if s.max_size ≤ s.queue.length then s
    else
      { s with
          counter := s.counter + 1,
          queue := insertSorted s.queue ⟨p, t, s.counter + 1⟩ }
  | .get =>
    match s.queue with
    | [] => s
    | x :: rest => { s with queue := rest, dequeued := s.dequeued ++ [x] }

/-- Run a sequence of operations on an initially empty queue. -/
def runQueue (maxSize : ℕ) (ops : List QOp) : QueueState :=
  ops.foldl stepQueue ⟨maxSize, [], 0, []⟩

lemma bisectLoop_self (q : List QueueItem) (x : QueueItem) (lo : ℕ) :
    bisectLoop q x lo lo = lo := by
  unfold bisectLoop
  simp

lemma bisectLoop_single_ge (a x : QueueItem) (h : ¬ itemLt a x) :
    bisectLoop [a] x 0 1 = 0 := by
  unfold bisectLoop
  simp [h, bisectLoop_self]

/-- C6 counterexample.  Ordering is by `(priority, timestamp)` with a
lower-bound binary search, so two items enqueued with the same priority at
the same wall-clock instant dequeue in reverse arrival order: the claimed
non-decreasing `(priority, arrivalSeq)` dequeue order fails. -/
theorem queue_equal_timestamp_counterexample :
    (runQueue 1000 [QOp.put 2 0, QOp.put 2 0, QOp.get, QOp.get]).dequeued =
      [⟨2, 0, 2⟩, ⟨2, 0, 1⟩] ∧
    ¬ List.Pairwise seqLex
      (runQueue 1000 [QOp.put 2 0, QOp.put 2 0, QOp.get, QOp.get]).dequeued := by
  have hb1 : bisectLoop [⟨2, 0, 1⟩] ⟨2, 0, 2⟩ 0 1 = 0 :=
    bisectLoop_single_ge _ _ (by norm_num [itemLt])
  have hdeq :
      (runQueue 1000 [QOp.put 2 0, QOp.put 2 0, QOp.get, QOp.get]).dequeued =
        [⟨2, 0, 2⟩, ⟨2, 0, 1⟩] := by
    norm_num [runQueue, stepQueue, insertSorted, insertIdxAt, List.foldl,
      hb1, bisectLoop_self]
  refine ⟨hdeq, ?_⟩
  rw [hdeq]
  norm_num [seqLex]

lemma itemLt_le_lt_trans {a b c : QueueItem} (hle : ¬ itemLt b a)
    (hlt : itemLt b c) : itemLt a c := by
  simp only [itemLt, not_or, not_and, not_lt] at hle
  simp only [itemLt] at hlt ⊢
  obtain ⟨h1, h2⟩ := hle
  rcases hlt with h | ⟨hp, ht⟩
  · exact Or.inl (lt_of_le_of_lt h1 h)
  · rcases lt_or_eq_of_le h1 with h' | h'
    · exact Or.inl (hp ▸ h')
    · exact Or.inr ⟨h'.trans hp, lt_of_le_of_lt (h2 h'.symm) ht⟩

lemma itemLt_asymm {a b : QueueItem} (h : itemLt a b) : ¬ itemLt b a := by
  simp only [itemLt] at h ⊢
  push_neg
  rcases h with h | ⟨hp, ht⟩
  · refine ⟨le_of_lt h, fun he => ?_⟩
    rw [he] at h
    exact absurd h (lt_irrefl _)
  · exact ⟨le_of_eq hp, fun _ => le_of_lt ht⟩

lemma insertIdxAt_eq_take_drop (x : QueueItem) :
    ∀ (i : ℕ) (q : List QueueItem),
      insertIdxAt i x q = q.take i ++ x :: q.drop i := by
  intro i
  induction i with
  | zero => intro q; simp [insertIdxAt]
  | succ n ih =>
    intro q
    cases q with
    | nil => simp [insertIdxAt]
    | cons a q' => simp [insertIdxAt, ih]

/-- Specification of the lower-bound binary search on a sorted segment:
it lands between `lo` and `hi`, everything strictly below the result is
`< x`, everything at or above it is `≥ x`. -/
lemma bisectLoop_spec (q : List QueueItem) (x : QueueItem)
    (hs : List.Pairwise itemLE q) :
    ∀ fuel lo hi, hi - lo ≤ fuel → lo ≤ hi → hi ≤ q.length →
      (∀ j, j < lo → itemLt (q.getD j ⟨0, 0, 0⟩) x) →
      (∀ j, hi ≤ j → j < q.length → ¬ itemLt (q.getD j ⟨0, 0, 0⟩) x) →
      lo ≤ bisectLoop q x lo hi ∧ bisectLoop q x lo hi ≤ hi ∧
      (∀ j, j < bisectLoop q x lo hi → itemLt (q.getD j ⟨0, 0, 0⟩) x) ∧
      (∀ j, bisectLoop q x lo hi ≤ j → j < q.length →
        ¬ itemLt (q.getD j ⟨0, 0, 0⟩) x) := by
  have hsorted : ∀ i j, i < j → j < q.length →
      ¬ itemLt (q.getD j ⟨0, 0, 0⟩) (q.getD i ⟨0, 0, 0⟩) := by
    intro i j hij hj
    have hi : i < q.length := lt_trans hij hj
    rw [List.getD_eq_getElem _ _ hi, List.getD_eq_getElem _ _ hj]
    exact List.pairwise_iff_getElem.mp hs i j hi hj hij
  intro fuel
  induction fuel with
  | zero =>
    intro lo hi hfuel hle hhi hlow hhigh
    have : hi = lo := by omega
    subst this
    rw [bisectLoop_self]
    exact ⟨le_rfl, le_rfl, hlow, hhigh⟩
  | succ f ih =>
    intro lo hi hfuel hle hhi hlow hhigh
    by_cases h : lo < hi
    · rw [bisectLoop]
      simp only [h, dif_pos]
      have hmidlo : lo ≤ (lo + hi) / 2 := by omega
      have hmidhi : (lo + hi) / 2 < hi := by omega
      have hmidlen : (lo + hi) / 2 < q.length := lt_of_lt_of_le hmidhi hhi
      by_cases hcmp : itemLt (q.getD ((lo + hi) / 2) ⟨0, 0, 0⟩) x
      · simp only [hcmp, if_true]
        refine (ih ((lo + hi) / 2 + 1) hi (by omega) (by omega) hhi ?_ hhigh).imp
          (fun h1 => le_trans (by omega) h1) (fun h2 => h2)
        intro j hj
        rcases lt_or_ge j ((lo + hi) / 2) with hj' | hj'
        · exact itemLt_le_lt_trans (hsorted j ((lo + hi) / 2) hj' hmidlen) hcmp
        · have : j = (lo + hi) / 2 := by omega
          subst this
          exact hcmp
      · simp only [hcmp, if_false]
        refine (ih lo ((lo + hi) / 2) (by omega) (by omega)
          (le_of_lt hmidlen) hlow ?_).imp
          (fun h1 => h1) (fun h2 => ⟨le_trans h2.1 (by omega), h2.2⟩)
        intro j hj hjlen
        intro hlt
        rcases lt_or_ge j ((lo + hi) / 2) with hj' | hj'
        · omega
        · rcases eq_or_lt_of_le hj' with hj2 | hj2
          · rw [hj2] at hcmp
            exact hcmp hlt
          · exact hcmp (itemLt_le_lt_trans (hsorted _ j hj2 hjlen) hlt)
    · have : hi = lo := by omega
      subst this
      rw [bisectLoop_self]
      exact ⟨le_rfl, le_rfl, hlow, hhigh⟩

lemma mem_insertSorted {q : List QueueItem} {x y : QueueItem}
    (hy : y ∈ insertSorted q x) : y = x ∨ y ∈ q := by
  rw [insertSorted, insertIdxAt_eq_take_drop] at hy
  rcases List.mem_append.mp hy with hy | hy
  · exact Or.inr ((List.take_sublist _ _).mem hy)
  · rcases List.mem_cons.mp hy with hy | hy
    · exact Or.inl hy
    · exact Or.inr ((List.drop_sublist _ _).mem hy)

lemma pairwise_insertSorted {q : List QueueItem} (x : QueueItem)
    (hs : List.Pairwise itemLE q) :
    List.Pairwise itemLE (insertSorted q x) := by
  obtain ⟨hge0, hlen, hbelow, habove⟩ :=
    bisectLoop_spec q x hs q.length 0 q.length (by omega) (Nat.zero_le _)
      le_rfl (fun j hj => absurd hj (Nat.not_lt_zero j))
      (fun j hj hjlen => absurd (lt_of_le_of_lt hj hjlen) (lt_irrefl _))
  rw [insertSorted, insertIdxAt_eq_take_drop]
  rw [List.pairwise_append]
  have htake := hs.sublist (List.take_sublist (bisectLoop q x 0 q.length) q)
  have hdrop := hs.sublist (List.drop_sublist (bisectLoop q x 0 q.length) q)
  have hsplit := (List.pairwise_append.mp
    ((List.take_append_drop (bisectLoop q x 0 q.length) q).symm ▸ hs)).2.2
  refine ⟨htake, ?_, ?_⟩
  · rw [List.pairwise_cons]
    refine ⟨?_, hdrop⟩
    intro b hb
    obtain ⟨k, hk, hbk⟩ := List.mem_iff_getElem.mp hb
    rw [List.getElem_drop] at hbk
    have hklen : bisectLoop q x 0 q.length + k < q.length := by
      rw [List.length_drop] at hk
      omega
    have := habove (bisectLoop q x 0 q.length + k) (Nat.le_add_right _ _)
      hklen
    rw [List.getD_eq_getElem _ _ hklen] at this
    rw [← hbk]
    exact this
  · intro a ha b hb
    rcases List.mem_cons.mp hb with hbx | hb
    · rw [hbx]
      obtain ⟨k, hk, hak⟩ := List.mem_iff_getElem.mp ha
      rw [List.getElem_take] at hak
      have hki : k < bisectLoop q x 0 q.length := by
        rw [List.length_take] at hk
        omega
      have hklen : k < q.length := by
        rw [List.length_take] at hk
        omega
      have := hbelow k hki
      rw [List.getD_eq_getElem _ _ hklen] at this
      rw [← hak]
      exact itemLt_asymm this
    · exact hsplit a ha b hb

/-- Invariant carried through the enqueue phase: queue sorted by
`(priority, timestamp)`, sequence numbers bounded by the counter,
timestamps strictly monotone in sequence number, and every queued
timestamp strictly below all future enqueue timestamps. -/
def QInv (s : QueueState) (future : List (ℤ × ℚ)) : Prop :=
  List.Pairwise itemLE s.queue ∧
  (∀ a ∈ s.queue, a.seq ≤ s.counter) ∧
  (∀ a ∈ s.queue, ∀ b ∈ s.queue, a.seq < b.seq →
    a.timestamp < b.timestamp) ∧
  (∀ a ∈ s.queue, ∀ pt ∈ future, a.timestamp < pt.2)

lemma stepQueue_put_dequeued (s : QueueState) (p : ℤ) (t : ℚ) :
    (stepQueue s (QOp.put p t)).dequeued = s.dequeued := by
  simp only [stepQueue]
  split <;> rfl

lemma put_phase (puts : List (ℤ × ℚ)) :
    ∀ s : QueueState, List.Pairwise (fun u v : ℤ × ℚ => u.2 < v.2) puts →
      QInv s puts →
      QInv ((puts.map (fun pt => QOp.put pt.1 pt.2)).foldl stepQueue s) [] ∧
      ((puts.map (fun pt => QOp.put pt.1 pt.2)).foldl stepQueue s).dequeued =
        s.dequeued := by
  induction puts with
  | nil =>
    intro s _ hinv
    exact ⟨⟨hinv.1, hinv.2.1, hinv.2.2.1, by simp⟩, rfl⟩
  | cons pt rest ih =>
    intro s hts hinv
    obtain ⟨hts1, hts2⟩ := List.pairwise_cons.mp hts
    simp only [List.map_cons, List.foldl_cons]
    have hstep : QInv (stepQueue s (QOp.put pt.1 pt.2)) rest := by
      simp only [stepQueue]
      split
      · exact ⟨hinv.1, hinv.2.1, hinv.2.2.1,
          fun a ha v hv => hinv.2.2.2 a ha v (List.mem_cons_of_mem _ hv)⟩
      · refine ⟨pairwise_insertSorted _ hinv.1, ?_, ?_, ?_⟩
        · intro a ha
          rcases mem_insertSorted ha with rfl | ha
          · exact le_rfl
          · exact le_trans (hinv.2.1 a ha) (Nat.le_succ _)
        · intro a ha b hb hab
          rcases mem_insertSorted ha with rfl | ha <;>
            rcases mem_insertSorted hb with rfl | hb
          · exact absurd hab (lt_irrefl _)
          · exact absurd (lt_of_lt_of_le hab (hinv.2.1 b hb))
              (by simp)
          · exact hinv.2.2.2 a ha pt (List.mem_cons_self _ _)
          · exact hinv.2.2.1 a ha b hb hab
        · intro a ha v hv
          rcases mem_insertSorted ha with rfl | ha
          · exact hts1 v hv
          · exact hinv.2.2.2 a ha v (List.mem_cons_of_mem _ hv)
    obtain ⟨hq, hd⟩ := ih (stepQueue s (QOp.put pt.1 pt.2)) hts2 hstep
    exact ⟨hq, hd.trans (stepQueue_put_dequeued s pt.1 pt.2)⟩

lemma pairwise_seqLex_of (Q : List QueueItem)
    (h1 : List.Pairwise itemLE Q)
    (h2 : ∀ a ∈ Q, ∀ b ∈ Q, a.seq < b.seq → a.timestamp < b.timestamp) :
    List.Pairwise seqLex Q := by
  refine List.Pairwise.imp_of_mem ?_ h1
  intro a b ha hb hab
  by_cases hp : a.priority = b.priority
  · refine Or.inr ⟨hp, ?_⟩
    by_contra hseq
    push_neg at hseq
    exact hab (Or.inr ⟨hp.symm, h2 b hb a ha hseq⟩)
  · left
    rcases lt_or_ge a.priority b.priority with h | h
    · exact h
    · exact absurd (Or.inl (lt_of_le_of_ne h (fun e => hp e.symm)))
        hab

lemma get_phase (n : ℕ) :
    ∀ s : QueueState,
      ((List.replicate n QOp.get).foldl stepQueue s).dequeued ++
        ((List.replicate n QOp.get).foldl stepQueue s).queue =
      s.dequeued ++ s.queue := by
  induction n with
  | zero => intro s; simp
  | succ m ih =>
    intro s
    rw [List.replicate_succ, List.foldl_cons, ih (stepQueue s QOp.get)]
    cases hq : s.queue with
    | nil => simp [stepQueue, hq]
    | cons a rest => simp [stepQueue, hq]

/-- C6 (amended).  Ordering is by `(priority, timestamp)`, not
`(priority, arrivalSeq)`; when the enqueue timestamps are strictly
increasing and the dequeues follow the enqueues, the dequeue sequence is
non-decreasing in `(priority, arrivalSeq)` — in particular, among items of
equal priority the earlier-enqueued one dequeues first.  (With equal
timestamps the binary search inserts before equal elements and the
property fails; see the counterexample.) -/
theorem queue_dequeue_order (maxSize : ℕ) (puts : List (ℤ × ℚ)) (n : ℕ)
    (hts : List.Pairwise (fun u v : ℤ × ℚ => u.2 < v.2) puts) :
    List.Pairwise seqLex
      (runQueue maxSize
        (puts.map (fun pt => QOp.put pt.1 pt.2) ++
          List.replicate n QOp.get)).dequeued := by
  rw [runQueue, List.foldl_append]
  have hinv0 : QInv ⟨maxSize, [], 0, []⟩ puts := by
    refine ⟨List.Pairwise.nil, ?_, ?_, ?_⟩ <;> simp
  obtain ⟨hinv, hdeq⟩ := put_phase puts ⟨maxSize, [], 0, []⟩ hts hinv0
  have hQ : List.Pairwise seqLex
      ((puts.map (fun pt => QOp.put pt.1 pt.2)).foldl stepQueue
        ⟨maxSize, [], 0, []⟩).queue :=
    pairwise_seqLex_of _ hinv.1 hinv.2.2.1
  have hgp := get_phase n
    ((puts.map (fun pt => QOp.put pt.1 pt.2)).foldl stepQueue
      ⟨maxSize, [], 0, []⟩)
  have hall : List.Pairwise seqLex
      (((List.replicate n QOp.get).foldl stepQueue
          ((puts.map (fun pt => QOp.put pt.1 pt.2)).foldl stepQueue
            ⟨maxSize, [], 0, []⟩)).dequeued ++
        ((List.replicate n QOp.get).foldl stepQueue
          ((puts.map (fun pt => QOp.put pt.1 pt.2)).foldl stepQueue
            ⟨maxSize, [], 0, []⟩)).queue) := by
    rw [hgp, hdeq]
    simpa using hQ
  exact hall.sublist (List.sublist_append_left _ _)

theorem queue_dequeue_order_witness :
    List.Pairwise (fun u v : ℤ × ℚ => u.2 < v.2) [((2:ℤ), (0:ℚ)), (1, 1)] ∧
    List.Pairwise seqLex
      (runQueue 1000
        (([((2:ℤ), (0:ℚ)), (1, 1)].map (fun pt => QOp.put pt.1 pt.2)) ++
          List.replicate 2 QOp.get)).dequeued :=
  ⟨by norm_num, queue_dequeue_order 1000 [(2, 0), (1, 1)] 2 (by norm_num)⟩
